import Mathlib

/-!
# Verification of the resumable batch audio-extraction pipeline

A shallow embedding of `extract_audio.py`: the completion ledger (a Python
dict, modelled as an association list with dict insertion semantics), the
quality parser and adaptive quality resolver, the ffprobe bitrate derivation,
the auto-detection scan of existing output files, the scheduler's per-result
handling loop, and the worker-count computation.  External effects (the
filesystem, the ffprobe/ffmpeg subprocesses) are passed in as explicit
oracles; subprocess invocations are counted explicitly where a claim is
about them.
-/

namespace ExtractAudio

/-! ## Python dicts as association lists -/

/-- Lookup in an association list: the value at the first matching key. -/
def dictFind {α : Type} (m : List (String × α)) (k : String) : Option α :=
  match m with
  | [] => none
  | (k₁, v) :: rest => if k₁ = k then some v else dictFind rest k

/-- Python dict assignment `m[k] = v`: replaces the value in place when the
key is present (dicts keep insertion order), appends a fresh entry otherwise. -/
def dictInsert {α : Type} (m : List (String × α)) (k : String) (v : α) :
    List (String × α) :=
  match m with
  | [] => [(k, v)]
  | (k₁, v₁) :: rest =>
    if k₁ = k then (k, v) :: rest else (k₁, v₁) :: dictInsert rest k v

theorem dictFind_append {α : Type} (m m' : List (String × α)) (k : String) :
    dictFind (m ++ m') k =
      match dictFind m k with
      | some v => some v
      | none => dictFind m' k := by
  induction m with
  | nil => simp [dictFind]
  | cons p rest ih =>
    obtain ⟨k₁, v⟩ := p
    by_cases h : k₁ = k <;> simp [dictFind, h, ih]

theorem dictFind_insert_self {α : Type} (m : List (String × α)) (k : String)
    (v : α) : dictFind (dictInsert m k v) k = some v := by
  induction m with
  | nil => simp [dictFind, dictInsert]
  | cons p rest ih =>
    obtain ⟨k₁, v₁⟩ := p
    by_cases h : k₁ = k
    · simp [dictFind, dictInsert, h]
    · simp [dictFind, dictInsert, h, ih]

theorem dictFind_insert_ne {α : Type} (m : List (String × α)) (k₁ k : String)
    (v : α) (hne : k₁ ≠ k) : dictFind (dictInsert m k₁ v) k = dictFind m k := by
  induction m with
  | nil => simp [dictFind, dictInsert, hne]
  | cons p rest ih =>
    obtain ⟨k₂, v₂⟩ := p
    by_cases h : k₂ = k₁
    · subst h; simp [dictFind, dictInsert, hne]
    · simp [dictFind, dictInsert, h, ih]

theorem dictFind_insert_isSome {α : Type} (m : List (String × α))
    (k₁ k : String) (v : α) (h : (dictFind m k).isSome) :
    (dictFind (dictInsert m k₁ v) k).isSome := by
  by_cases hk : k₁ = k
  · subst hk; rw [dictFind_insert_self]; rfl
  · rw [dictFind_insert_ne _ _ _ _ hk]; exact h

theorem dictFind_mem {α : Type} {m : List (String × α)} {k : String} {v : α}
    (h : dictFind m k = some v) : (k, v) ∈ m := by
  induction m with
  | nil => simp [dictFind] at h
  | cons p rest ih =>
    obtain ⟨k₁, v₁⟩ := p
    by_cases hk : k₁ = k
    · subst hk
      simp [dictFind] at h
      simp [h]
    · simp [dictFind, hk] at h
      exact List.mem_cons_of_mem _ (ih h)

theorem mem_dictInsert {α : Type} {m : List (String × α)} {k : String} {v : α}
    {p : String × α} (h : p ∈ dictInsert m k v) : p ∈ m ∨ p = (k, v) := by
  induction m with
  | nil => right; simpa [dictInsert] using h
  | cons q rest ih =>
    obtain ⟨k₁, v₁⟩ := q
    by_cases hk : k₁ = k
    · simp [dictInsert, hk] at h
      rcases h with h | h
      · right; simp [h]
      · left; exact List.mem_cons_of_mem _ h
    · simp only [dictInsert, if_neg hk, List.mem_cons] at h
      rcases h with h | h
      · left; simp [h]
      · rcases ih h with h' | h'
        · left; exact List.mem_cons_of_mem _ h'
        · right; exact h'

/-! ## Data model -/

/-- A per-item entry of the extraction record (`extraction_record_<fmt>.json`).
`quality` and `detected` are optional: auto-detected entries carry `detected`
but no `quality`, entries written after a conversion carry `quality` but no
`detected`. -/
structure CompletionRecord where
  status : String
  output_file : String
  audio_format : String
  quality : Option String
  detected : Option String
  timestamp : String
deriving DecidableEq, Repr

/-- The ledger: a Python dict from input basename to its record. -/
abbrev Ledger := List (String × CompletionRecord)

/-- A video file path, decomposed the way the script consumes it:
`os.path.basename` gives `stem ++ "." ++ ext`, `Path(...).stem` gives `stem`. -/
structure VideoPath where
  dir : String
  stem : String
  ext : String
deriving DecidableEq, Repr

def VideoPath.basename (vf : VideoPath) : String := vf.stem ++ "." ++ vf.ext

def VideoPath.path (vf : VideoPath) : String := vf.dir ++ "/" ++ vf.basename

/-- The filesystem facts the auto-detection scan consults
(`os.path.exists`, `os.path.getsize`, `Path(...).stat().st_mtime`). -/
structure FileSystem where
  pathExists : String → Bool
  fileSize : String → Nat
  mtime : String → String

/-! ## Quality parsing and the adaptive quality resolver
(`parse_quality_to_bps`, `get_adaptive_quality`) -/

/-- Value of a decimal digit string, as `int(...)` computes it. -/
def digitsToNat (ds : List Char) : Nat :=
  ds.foldl (fun a c => a * 10 + (c.toNat - 48)) 0

/-- `parse_quality_to_bps`: `re.match(r'(\d+)k?', quality_str.lower())`
captures the maximal leading digit run of the lowercased string; both the
`endswith('k')` branch and its else branch multiply by 1000.  Any exception
(and a non-matching string) yields `None`. -/
def parse_quality_to_bps (quality_str : String) : Option Nat :=
  let lowered := quality_str.data.map Char.toLower
  let ds := lowered.takeWhile Char.isDigit
  if ds.isEmpty then none
  else
    let value := digitsToNat ds
    if lowered.getLast? = some 'k' then some (value * 1000)
    else some (value * 1000)

/-- `get_adaptive_quality`: decide the final quality string from the probed
source bitrate (the result of `get_video_audio_bitrate`, passed in here as
`original_bitrate`), the target quality string and the audio format. -/
def get_adaptive_quality : Option Nat → String → String → String
  | none, target_quality, _ => target_quality
  | some original_bitrate, target_quality, audio_format =>
    match parse_quality_to_bps target_quality with
    | none => target_quality
    | some target_bps =>
      if target_bps > original_bitrate then
        if audio_format = "mp3" then
          if original_bitrate ≤ 66000 then "64k"
          else if original_bitrate ≤ 98000 then "96k"
          else if original_bitrate ≤ 130000 then "128k"
          else if original_bitrate ≤ 196000 then "192k"
          else "256k"
        else if audio_format = "aac" then
          if original_bitrate ≤ 66000 then "64k"
          else if original_bitrate ≤ 98000 then "96k"
          else if original_bitrate ≤ 130000 then "128k"
          else if original_bitrate ≤ 196000 then "192k"
          else "256k"
        else
          toString (original_bitrate / 1000) ++ "k"
      else
        target_quality

/-! ## Metadata prober (`get_video_audio_bitrate`) -/

/-- The fields of the first audio stream that the prober consults, after
`json.loads` and `int(...)` parsing.  `tags_BPS` and `tags_bit_rate` model
`stream['tags']['BPS']` and `stream['tags']['bit_rate']`. -/
structure AudioStream where
  bit_rate : Option Nat
  tags_BPS : Option Nat
  tags_bit_rate : Option Nat
  sample_rate : Option Nat
  channels : Option Nat
deriving DecidableEq, Repr

/-- Outcome of the `ffprobe` subprocess, already JSON-parsed.  `none` models
any raised exception (tool missing, unparseable JSON, `int()` failure),
which the `try`/`except` turns into a `None` result. -/
structure ProbeOutput where
  returncode : Nat
  streams : List AudioStream
deriving DecidableEq, Repr

/-- `get_video_audio_bitrate`: derive an audio bitrate from the probe of the
first audio stream, with the source's field precedence. -/
def get_video_audio_bitrate (probe : Option ProbeOutput) : Option Nat :=
  match probe with
  | none => none
  | some result =>
    if result.returncode = 0 then
      match result.streams with
      | [] => none
      | stream :: _ =>
        match stream.bit_rate with
        | some bitrate => some bitrate
        | none =>
          match stream.tags_BPS with
          | some bitrate => some bitrate
          | none =>
            match stream.tags_bit_rate with
            | some bitrate => some bitrate
            | none =>
              match stream.sample_rate, stream.channels with
              | some sample_rate, some channels =>
                some (sample_rate * channels * 16)
              | _, _ => none
    else none

/-! ## Completion ledger load (`load_extraction_record`) -/

/-- State of the record file on disk: absent, present but unparseable
(`json.load` raises), or present and parsing to a mapping. -/
inductive RecordFileState where
  | missing : RecordFileState
  | corrupt : RecordFileState
  | parses (record : Ledger) : RecordFileState

/-- `load_extraction_record`: read the on-disk record if it exists; any
parse failure falls back to the empty record. -/
def load_extraction_record : RecordFileState → Ledger
  | .missing => []
  | .corrupt => []
  | .parses record => record

/-! ## Auto-detection of existing outputs (`check_existing_audio_files`),
record merging and pending/completed partitioning (`main`) -/

/-- The format dispatch of the scan loop: the audio file path
`os.path.join(output_dir, f"{video_name}.<fmt>")` for the four supported
formats, `none` for the `continue` branch. -/
def audio_file_for (output_dir : String) (video_name : String)
    (audio_format : String) : Option String :=
  if audio_format = "mp3" then some (output_dir ++ "/" ++ video_name ++ ".mp3")
  else if audio_format = "aac" then some (output_dir ++ "/" ++ video_name ++ ".aac")
  else if audio_format = "wav" then some (output_dir ++ "/" ++ video_name ++ ".wav")
  else if audio_format = "flac" then some (output_dir ++ "/" ++ video_name ++ ".flac")
  else none

/-- One iteration of the `check_existing_audio_files` loop: when a
non-empty plausibly-named output file exists, record an auto-detected
completion under the video's basename. -/
def check_existing_step (fs : FileSystem) (output_dir audio_format : String)
    (existing_files : Ledger) (video_file : VideoPath) : Ledger :=
  match audio_file_for output_dir video_file.stem audio_format with
  | none => existing_files
  | some audio_file =>
    if fs.pathExists audio_file && decide (fs.fileSize audio_file > 0) then
      dictInsert existing_files video_file.basename
        { status := "completed"
          output_file := audio_file
          audio_format := audio_format
          quality := none
          detected := some "auto"
          timestamp := fs.mtime audio_file }
    else existing_files

/-- `check_existing_audio_files`: for each candidate video, look for a
non-empty `<stem>.<fmt>` in the output directory and synthesize an
auto-detected completed record keyed by the video's basename. -/
def check_existing_audio_files (fs : FileSystem) (video_files : List VideoPath)
    (output_dir : String) (audio_format : String) : Ledger :=
  video_files.foldl (check_existing_step fs output_dir audio_format) []

/-- The merge loop of `main`: `for filename, info in auto_detected.items():
if filename not in record: record[filename] = info`. -/
def merge_auto_detected (record : Ledger) (auto_detected : Ledger) : Ledger :=
  auto_detected.foldl (fun rec kv =>
    if (dictFind rec kv.1).isSome then rec else rec ++ [kv]) record

/-- The partition loop of `main`: split the candidate list into
(completed_files, pending_files) by the merged record's status. -/
def partition_pending (video_files : List VideoPath) (record : Ledger) :
    List VideoPath × List VideoPath :=
  video_files.foldl (fun acc video_file =>
    match dictFind record video_file.basename with
    | some info =>
      if info.status = "completed" then (acc.1 ++ [video_file], acc.2)
      else (acc.1, acc.2 ++ [video_file])
    | none => (acc.1, acc.2 ++ [video_file])) ([], [])

/-! ## Conversion worker (`extract_audio_from_video_worker`) -/

/-- Outcome of one worker call: the `(True, (video_name, quality,
original_quality))` success tuple or the `(False, error_msg)` failure. -/
inductive WorkerResult where
  | success (video_name : String) (quality : String) (original_quality : String)
  | failure (error_msg : String)
deriving DecidableEq, Repr

/-- How many subprocesses a worker call ran, split by kind: `ffprobe`
invocations (from `get_video_audio_bitrate`) and `ffmpeg` encode
invocations. -/
structure SubprocessCount where
  probe_calls : Nat
  encode_calls : Nat
deriving DecidableEq, Repr

/-- Environment of one worker call: the probe outcome that
`get_video_audio_bitrate` would parse, and the encode subprocess outcome. -/
structure WorkerEnv where
  probe : Option ProbeOutput
  encode_ok : Bool
  encode_stderr : Option String

/-- `extract_audio_from_video_worker`: resolve the quality (probing first
when adaptive mode is on), build the format-specific `ffmpeg` command, run
it, and report the result.  The unsupported-format branch returns before
any encode invocation. -/
def extract_audio_from_video_worker (env : WorkerEnv) (video_path : VideoPath)
    (output_dir : String) (audio_format : String) (quality : String)
    (use_adaptive : Bool) : WorkerResult × SubprocessCount :=
  let video_name := video_path.stem
  let original_quality := quality
  let (quality, probe_calls) :=
    if use_adaptive then
      (get_adaptive_quality (get_video_audio_bitrate env.probe) quality
        audio_format, 1)
    else (quality, 0)
  let invocation? : Option (String × List String) :=
    if audio_format = "mp3" then
      let output_file := output_dir ++ "/" ++ video_name ++ ".mp3"
      some (output_file,
        ["ffmpeg", "-i", video_path.path, "-vn", "-acodec", "libmp3lame",
         "-ab", quality, "-y", output_file])
    else if audio_format = "aac" then
      let output_file := output_dir ++ "/" ++ video_name ++ ".aac"
      some (output_file,
        ["ffmpeg", "-i", video_path.path, "-vn", "-acodec", "aac",
         "-b:a", quality, "-y", output_file])
    else if audio_format = "wav" then
      let output_file := output_dir ++ "/" ++ video_name ++ ".wav"
      some (output_file,
        ["ffmpeg", "-i", video_path.path, "-vn", "-acodec", "pcm_s16le",
         "-ar", "44100", "-y", output_file])
    else if audio_format = "flac" then
      let output_file := output_dir ++ "/" ++ video_name ++ ".flac"
      some (output_file,
        ["ffmpeg", "-i", video_path.path, "-vn", "-acodec", "flac",
         "-y", output_file])
    else none
  match invocation? with
  | none =>
    (.failure ("Unsupported audio format: " ++ audio_format),
     ⟨probe_calls, 0⟩)
  | some _ =>
    if env.encode_ok then
      (.success video_name quality original_quality, ⟨probe_calls, 1⟩)
    else
      let error_msg := "Extraction failed: " ++ video_name ++
        (match env.encode_stderr with
         | some stderr_text => " - " ++ stderr_text
         | none => "")
      (.failure error_msg, ⟨probe_calls, 1⟩)

/-! ## Worker-count selection (`main`) -/

/-- The `max_workers` computation of `main`: sequential mode forces 1;
otherwise an explicit positive `--jobs` value is used as-is, and the
auto-detect default is `min(multiprocessing.cpu_count(), len(pending_files))`. -/
def determine_max_workers (sequential : Bool) (jobs : Int) (cpu_count : Nat)
    (pending_count : Nat) : Nat :=
  if sequential then 1
  else if jobs > 0 then jobs.toNat
  else min cpu_count pending_count

/-! ## The scheduler's per-result handling loop (`main`) -/

/-- Scheduler state: the aggregate success count and the in-memory record. -/
structure RunState where
  success_count : Nat
  record : Ledger
deriving Repr

/-- One result-handling step of `main`'s extraction loop: on success bump
the count and (when resume is on) write the completed record under the
item's basename; on failure leave both untouched and move on.  The same
handling is performed per completed future in parallel mode. -/
def process_result (st : RunState) (output_dir : String)
    (audio_format : String) (default_quality : String) (record_file : Bool)
    (now : String) (video_file : VideoPath) (success : Bool)
    (actual_quality : Option String) : RunState :=
  if success then
    { success_count := st.success_count + 1
      record :=
        if record_file then
          dictInsert st.record video_file.basename
            { status := "completed"
              output_file := output_dir ++ "/" ++ video_file.stem ++ "." ++ audio_format
              audio_format := audio_format
              quality := some (actual_quality.getD default_quality)
              detected := none
              timestamp := now }
        else st.record }
  else st

/-- The extraction loop over the pending items, in the order results are
handled (submission order in sequential mode, completion order in parallel
mode).  `outcome` abstracts each job's reported result: success flag and
the actual quality used. -/
def run_extraction (jobs : List VideoPath)
    (outcome : VideoPath → Bool × Option String) (output_dir : String)
    (audio_format : String) (default_quality : String) (record_file : Bool)
    (now : String) (initial_record : Ledger) : RunState :=
  jobs.foldl (fun st video_file =>
    process_result st output_dir audio_format default_quality record_file now
      video_file (outcome video_file).1 (outcome video_file).2)
    ⟨0, initial_record⟩

/-! ## Claim theorems -/

/-- C2: for every probed bitrate `p` and target quality whose parsed
bits-per-second exceeds `p`, with audio format mp3 or aac, the resolved
quality is exactly the bucket given by the thresholds
`≤66000→64k, ≤98000→96k, ≤130000→128k, ≤196000→192k, else→256k`. -/
theorem adaptive_bucket_thresholds (p target_bps : Nat)
    (target_quality audio_format : String)
    (hfmt : audio_format = "mp3" ∨ audio_format = "aac")
    (hparse : parse_quality_to_bps target_quality = some target_bps)
    (hgt : p < target_bps) :
    get_adaptive_quality (some p) target_quality audio_format =
      (if p ≤ 66000 then "64k"
       else if p ≤ 98000 then "96k"
       else if p ≤ 130000 then "128k"
       else if p ≤ 196000 then "192k"
       else "256k") := by
  simp only [get_adaptive_quality, hparse]
  rw [if_pos hgt]
  rcases hfmt with h | h <;> subst h
  · rw [if_pos rfl]
  · rw [if_neg (by decide), if_pos rfl]

/-- Witness for C2, at the claim's own boundary instances: probed 66000
with target `"192k"` resolves to `"64k"`, probed 67000 to `"96k"`. -/
theorem adaptive_bucket_thresholds_witness :
    get_adaptive_quality (some 66000) "192k" "mp3" = "64k" ∧
    get_adaptive_quality (some 67000) "192k" "mp3" = "96k" := by
  constructor
  · rw [adaptive_bucket_thresholds 66000 192000 "192k" "mp3" (Or.inl rfl)
      (by decide) (by decide)]
    decide
  · rw [adaptive_bucket_thresholds 67000 192000 "192k" "mp3" (Or.inl rfl)
      (by decide) (by decide)]
    decide

/-- C3: whenever the target quality parses to a bits-per-second value that
is at most the probed bitrate, the resolver returns the original target
string unchanged, for every audio format. -/
theorem no_upscale_keeps_target (p target_bps : Nat)
    (target_quality audio_format : String)
    (hparse : parse_quality_to_bps target_quality = some target_bps)
    (hle : target_bps ≤ p) :
    get_adaptive_quality (some p) target_quality audio_format =
      target_quality := by
  simp only [get_adaptive_quality, hparse]
  rw [if_neg (by omega)]

/-- Witness for C3: target `"128k"` (128000 bps) against probed 192000. -/
theorem no_upscale_keeps_target_witness :
    get_adaptive_quality (some 192000) "128k" "mp3" = "128k" :=
  no_upscale_keeps_target 192000 128000 "128k" "mp3" (by decide) (by decide)

/-- Counterexample to C7 as stated: with probed bitrate 50000 and target
`"192k"` (which exceeds it) on mp3, the resolver adjusts to `"64k"`, whose
bits-per-second value 64000 is strictly above the probed 50000. -/
theorem adjusted_quality_bounds_cex :
    parse_quality_to_bps
        (get_adaptive_quality (some 50000) "192k" "mp3") = some 64000 ∧
    ¬ 64000 ≤ 50000 := by decide

/-- C7 amended: whenever the resolver adjusts the quality (parsed target
exceeds the probed bitrate), for formats other than mp3 and aac the
resolved quality is `⌊probed/1000⌋` kilobits, which is at or below the
probed bitrate; for mp3 and aac the resolved quality is the threshold
bucket, whose bits-per-second value may exceed the probed bitrate, though
never by more than 64000 bps. -/
theorem adjusted_quality_bounds (p target_bps : Nat)
    (target_quality audio_format : String)
    (hparse : parse_quality_to_bps target_quality = some target_bps)
    (hgt : p < target_bps) :
    (audio_format ≠ "mp3" → audio_format ≠ "aac" →
      get_adaptive_quality (some p) target_quality audio_format =
        toString (p / 1000) ++ "k" ∧
      p / 1000 * 1000 ≤ p) ∧
    (audio_format = "mp3" ∨ audio_format = "aac" →
      ∃ v, parse_quality_to_bps
          (get_adaptive_quality (some p) target_quality audio_format) =
            some v ∧
        v ≤ p + 64000) := by
  simp only [get_adaptive_quality, hparse]
  rw [if_pos hgt]
  constructor
  · intro hm ha
    rw [if_neg hm, if_neg ha]
    exact ⟨rfl, Nat.div_mul_le_self p 1000⟩
  · intro hfmt
    rcases hfmt with h | h <;> subst h
    · rw [if_pos rfl]
      split_ifs <;> first
        | exact ⟨64000, by decide, by omega⟩
        | exact ⟨96000, by decide, by omega⟩
        | exact ⟨128000, by decide, by omega⟩
        | exact ⟨192000, by decide, by omega⟩
        | exact ⟨256000, by decide, by omega⟩
    · rw [if_neg (by decide), if_pos rfl]
      split_ifs <;> first
        | exact ⟨64000, by decide, by omega⟩
        | exact ⟨96000, by decide, by omega⟩
        | exact ⟨128000, by decide, by omega⟩
        | exact ⟨192000, by decide, by omega⟩
        | exact ⟨256000, by decide, by omega⟩

/-- Witness for the amended C7: the wav branch at probed 50500 (resolved
`"50k"`, 50000 ≤ 50500) and the mp3 branch at probed 50000 (resolved bps
64000 ≤ 50000 + 64000). -/
theorem adjusted_quality_bounds_witness :
    (get_adaptive_quality (some 50500) "192k" "wav" = "50k" ∧
      50500 / 1000 * 1000 ≤ 50500) ∧
    (∃ v, parse_quality_to_bps
        (get_adaptive_quality (some 50000) "192k" "mp3") = some v ∧
      v ≤ 50000 + 64000) := by
  constructor
  · have h := (adjusted_quality_bounds 50500 192000 "192k" "wav" (by decide)
      (by decide)).1 (by decide) (by decide)
    exact ⟨h.1, h.2⟩
  · exact (adjusted_quality_bounds 50000 192000 "192k" "mp3" (by decide)
      (by decide)).2 (Or.inl rfl)

/-- C9: loading the ledger returns the parsed on-disk mapping when the file
exists and parses, and the empty mapping for a missing or corrupt file; the
function is total, so no fatal error is possible. -/
theorem load_record_fallback :
    (∀ record, load_extraction_record (.parses record) = record) ∧
    load_extraction_record .missing = [] ∧
    load_extraction_record .corrupt = [] :=
  ⟨fun _ => rfl, rfl, rfl⟩

/-- C8: for a successful probe of the first audio stream, the returned
bitrate follows the precedence: direct `bit_rate` field, then the `BPS`
tag, then the `bit_rate` tag, then the `sample_rate * channels * 16`
estimate, and is otherwise absent. -/
theorem probe_bitrate_precedence (result : ProbeOutput) (stream : AudioStream)
    (rest : List AudioStream)
    (hrc : result.returncode = 0)
    (hstreams : result.streams = stream :: rest) :
    (∀ b, stream.bit_rate = some b →
      get_video_audio_bitrate (some result) = some b) ∧
    (stream.bit_rate = none → ∀ b, stream.tags_BPS = some b →
      get_video_audio_bitrate (some result) = some b) ∧
    (stream.bit_rate = none → stream.tags_BPS = none →
      ∀ b, stream.tags_bit_rate = some b →
        get_video_audio_bitrate (some result) = some b) ∧
    (stream.bit_rate = none → stream.tags_BPS = none →
      stream.tags_bit_rate = none →
      ∀ sr ch, stream.sample_rate = some sr → stream.channels = some ch →
        get_video_audio_bitrate (some result) = some (sr * ch * 16)) ∧
    (stream.bit_rate = none → stream.tags_BPS = none →
      stream.tags_bit_rate = none →
      stream.sample_rate = none ∨ stream.channels = none →
        get_video_audio_bitrate (some result) = none) := by
  refine ⟨?_, ?_, ?_, ?_, ?_⟩
  · intro b hb
    simp [get_video_audio_bitrate, hrc, hstreams, hb]
  · intro h0 b hb
    simp [get_video_audio_bitrate, hrc, hstreams, h0, hb]
  · intro h0 h1 b hb
    simp [get_video_audio_bitrate, hrc, hstreams, h0, h1, hb]
  · intro h0 h1 h2 sr ch hsr hch
    simp [get_video_audio_bitrate, hrc, hstreams, h0, h1, h2, hsr, hch]
  · intro h0 h1 h2 h3
    rcases h3 with h3 | h3 <;>
      simp [get_video_audio_bitrate, hrc, hstreams, h0, h1, h2, h3]

/-- Witness for C8, exercising the estimate tier: a stream with only
sample rate 44100 and 2 channels probes to 44100 * 2 * 16 = 1411200. -/
theorem probe_bitrate_precedence_witness :
    get_video_audio_bitrate
        (some ⟨0, [⟨none, none, none, some 44100, some 2⟩]⟩) =
      some 1411200 := by
  have h := (probe_bitrate_precedence ⟨0, [⟨none, none, none, some 44100, some 2⟩]⟩
    ⟨none, none, none, some 44100, some 2⟩ [] rfl rfl).2.2.2.1
    rfl rfl rfl 44100 2 rfl rfl
  simpa using h

/-- Counterexample to C5 as stated: with sequential mode off, 8 requested
jobs, 4 processing units and 10 pending items, the code picks 8 workers,
not `min 8 (min 10 4) = 4`. -/
theorem max_workers_selection_cex :
    determine_max_workers false 8 4 10 = 8 ∧
    min 8 (min 10 4) = 4 ∧ (8 : Nat) ≠ 4 := by decide

/-- C5 amended: sequential mode uses exactly 1 worker; in parallel mode an
explicitly requested positive job count is used as-is (not capped by the
pending count or the processing units), and only when no positive count is
requested is the bound `min(processing units, pending items)`; the bound is
computed once at the start of the run. -/
theorem max_workers_selection (sequential : Bool) (jobs : Int)
    (cpu_count pending_count : Nat) :
    (sequential = true →
      determine_max_workers sequential jobs cpu_count pending_count = 1) ∧
    (sequential = false → 0 < jobs →
      determine_max_workers sequential jobs cpu_count pending_count =
        jobs.toNat) ∧
    (sequential = false → jobs ≤ 0 →
      determine_max_workers sequential jobs cpu_count pending_count =
        min cpu_count pending_count) := by
  refine ⟨fun h => ?_, fun h hj => ?_, fun h hj => ?_⟩
  · simp [determine_max_workers, h]
  · simp [determine_max_workers, h, hj]
  · have hnj : ¬ jobs > 0 := by omega
    simp [determine_max_workers, h, hnj]

/-- Witness for the amended C5: all three modes at concrete values. -/
theorem max_workers_selection_witness :
    determine_max_workers true 8 4 10 = 1 ∧
    determine_max_workers false 8 4 10 = 8 ∧
    determine_max_workers false 0 4 10 = 4 := by
  refine ⟨(max_workers_selection true 8 4 10).1 rfl, ?_, ?_⟩
  · rw [(max_workers_selection false 8 4 10).2.1 rfl (by decide)]
    decide
  · rw [(max_workers_selection false 0 4 10).2.2 rfl (by decide)]
    decide

/-- Counterexample to C6 as stated: an unsupported format (`"ogg"`) with
adaptive quality enabled still runs one probe subprocess before failing, so
the run does not make zero subprocess invocations. -/
theorem unsupported_format_rejection_cex :
    (extract_audio_from_video_worker
        ⟨some ⟨0, [⟨some 128000, none, none, none, none⟩]⟩, true, none⟩
        ⟨"./original", "video1", "mp4"⟩ "./extracted_audio" "ogg" "192k"
        true).2.probe_calls = 1 ∧
    (1 : Nat) ≠ 0 := by decide

/-- C6 amended: for every audio format outside {mp3, aac, wav, flac} the
worker fails with the descriptive `Unsupported audio format` error and
spawns no encode subprocess; with adaptive quality disabled it makes zero
subprocess invocations, while with adaptive quality enabled exactly one
probe subprocess runs before the failure. -/
theorem unsupported_format_rejection (env : WorkerEnv) (video_path : VideoPath)
    (output_dir audio_format quality : String) (use_adaptive : Bool)
    (hfmt : audio_format ∉ (["mp3", "aac", "wav", "flac"] : List String)) :
    (extract_audio_from_video_worker env video_path output_dir audio_format
        quality use_adaptive).1 =
      .failure ("Unsupported audio format: " ++ audio_format) ∧
    (extract_audio_from_video_worker env video_path output_dir audio_format
        quality use_adaptive).2.encode_calls = 0 ∧
    (extract_audio_from_video_worker env video_path output_dir audio_format
        quality use_adaptive).2.probe_calls =
      (if use_adaptive then 1 else 0) := by
  simp only [List.mem_cons, List.not_mem_nil, or_false, not_or] at hfmt
  obtain ⟨h1, h2, h3, h4⟩ := hfmt
  cases use_adaptive <;>
    simp [extract_audio_from_video_worker, h1, h2, h3, h4]

/-- Witness for the amended C6: format `"ogg"`, adaptive enabled. -/
theorem unsupported_format_rejection_witness :
    (extract_audio_from_video_worker
        ⟨some ⟨0, [⟨some 128000, none, none, none, none⟩]⟩, true, none⟩
        ⟨"./original", "video1", "mp4"⟩ "./extracted_audio" "ogg" "192k"
        true).1 = .failure "Unsupported audio format: ogg" ∧
    (extract_audio_from_video_worker
        ⟨some ⟨0, [⟨some 128000, none, none, none, none⟩]⟩, true, none⟩
        ⟨"./original", "video1", "mp4"⟩ "./extracted_audio" "ogg" "192k"
        true).2.encode_calls = 0 := by
  have h := unsupported_format_rejection
    ⟨some ⟨0, [⟨some 128000, none, none, none, none⟩]⟩, true, none⟩
    ⟨"./original", "video1", "mp4"⟩ "./extracted_audio" "ogg" "192k"
    true (by decide)
  exact ⟨h.1, h.2.1⟩

theorem run_extraction_count (jobs : List VideoPath)
    (outcome : VideoPath → Bool × Option String)
    (output_dir audio_format default_quality now : String)
    (record_file : Bool) (st : RunState) :
    (jobs.foldl (fun st video_file =>
        process_result st output_dir audio_format default_quality record_file
          now video_file (outcome video_file).1 (outcome video_file).2)
      st).success_count =
      st.success_count +
        (jobs.filter (fun v => (outcome v).1)).length := by
  induction jobs generalizing st with
  | nil => simp
  | cons vf rest ih =>
    rw [List.foldl_cons, ih]
    by_cases h : (outcome vf).1 = true
    · simp [process_result, h, List.filter_cons]
      omega
    · simp at h
      simp [process_result, h, List.filter_cons]

theorem run_extraction_find (jobs : List VideoPath)
    (outcome : VideoPath → Bool × Option String)
    (output_dir audio_format default_quality now : String)
    (record_file : Bool) (key : String) (st : RunState)
    (hkey : ∀ v ∈ jobs, v.basename = key → (outcome v).1 = false) :
    dictFind (jobs.foldl (fun st video_file =>
        process_result st output_dir audio_format default_quality record_file
          now video_file (outcome video_file).1 (outcome video_file).2)
      st).record key = dictFind st.record key := by
  induction jobs generalizing st with
  | nil => rfl
  | cons vf rest ih =>
    rw [List.foldl_cons,
      ih _ (fun v hv he => hkey v (List.mem_cons_of_mem _ hv) he)]
    by_cases h : (outcome vf).1 = true
    · have hne : vf.basename ≠ key := by
        intro he
        have := hkey vf (List.mem_cons_self _ _) he
        rw [h] at this
        simp at this
      cases record_file with
      | false => simp [process_result, h]
      | true => simp [process_result, h, dictFind_insert_ne _ _ _ _ hne]
    · simp at h
      simp [process_result, h]

/-- C4: a job that reports failure causes no ledger entry for its key to be
added or modified (it stays as it was before the run, hence pending for a
future run); the run is not aborted — every job in the processing order is
handled and the final success count aggregates exactly the successful
jobs. -/
theorem failed_job_keeps_item_pending (jobs : List VideoPath)
    (outcome : VideoPath → Bool × Option String)
    (output_dir audio_format default_quality now : String)
    (record_file : Bool) (initial_record : Ledger) (vf : VideoPath)
    (hmem : vf ∈ jobs)
    (hfail : (outcome vf).1 = false)
    (hkey : ∀ v ∈ jobs, v.basename = vf.basename → (outcome v).1 = false) :
    dictFind (run_extraction jobs outcome output_dir audio_format
        default_quality record_file now initial_record).record vf.basename =
      dictFind initial_record vf.basename ∧
    (run_extraction jobs outcome output_dir audio_format default_quality
        record_file now initial_record).success_count =
      (jobs.filter (fun v => (outcome v).1)).length := by
  unfold run_extraction
  constructor
  · exact run_extraction_find jobs outcome output_dir audio_format
      default_quality now record_file vf.basename ⟨0, initial_record⟩ hkey
  · rw [run_extraction_count]
    simp

/-- Witness for C4: two jobs, `a.mp4` failing and `b.mp4` succeeding; the
failed item's key stays absent from the ledger and the success count is 1. -/
theorem failed_job_keeps_item_pending_witness :
    dictFind (run_extraction
        [⟨"./original", "a", "mp4"⟩, ⟨"./original", "b", "mp4"⟩]
        (fun v => if v.stem = "a" then (false, none) else (true, some "128k"))
        "./extracted_audio" "mp3" "192k" true "1700000000.0" []).record
      "a.mp4" = none ∧
    (run_extraction
        [⟨"./original", "a", "mp4"⟩, ⟨"./original", "b", "mp4"⟩]
        (fun v => if v.stem = "a" then (false, none) else (true, some "128k"))
        "./extracted_audio" "mp3" "192k" true "1700000000.0" []).success_count
      = 1 := by
  have h := failed_job_keeps_item_pending
    [⟨"./original", "a", "mp4"⟩, ⟨"./original", "b", "mp4"⟩]
    (fun v => if v.stem = "a" then (false, none) else (true, some "128k"))
    "./extracted_audio" "mp3" "192k" "1700000000.0" true []
    ⟨"./original", "a", "mp4"⟩ (by decide) (by decide) (by decide)
  constructor
  · have h1 := h.1
    simpa using h1
  · have h2 := h.2
    simpa using h2

theorem uint32_le_iff_toNat (a b : UInt32) : a ≤ b ↔ a.toNat ≤ b.toNat :=
  Iff.rfl

theorem char_isDigit_iff (c : Char) :
    c.isDigit = true ↔ 48 ≤ c.toNat ∧ c.toNat ≤ 57 := by
  simp only [Char.isDigit, Bool.and_eq_true, decide_eq_true_eq, ge_iff_le,
    uint32_le_iff_toNat]
  constructor
  · rintro ⟨h1, h2⟩
    exact ⟨by simpa using h1, by simpa using h2⟩
  · rintro ⟨h1, h2⟩
    exact ⟨by simpa using h1, by simpa using h2⟩

theorem char_toLower_of_isDigit {c : Char} (h : c.isDigit = true) :
    Char.toLower c = c := by
  have hn := (char_isDigit_iff c).mp h
  unfold Char.toLower
  rw [if_neg (by omega)]

theorem char_isDigit_toLower (c : Char) :
    (Char.toLower c).isDigit = c.isDigit := by
  unfold Char.toLower
  simp only []
  by_cases h : c.toNat ≥ 65 ∧ c.toNat ≤ 90
  · rw [if_pos h]
    have hv : Nat.isValidChar (c.toNat + 32) := Or.inl (by omega)
    have hlow : (Char.ofNat (c.toNat + 32)).toNat = c.toNat + 32 := by
      rw [Char.ofNat, dif_pos hv]
      rfl
    have h1 : (Char.ofNat (c.toNat + 32)).isDigit = false := by
      rw [Bool.eq_false_iff]
      intro hd
      have := (char_isDigit_iff _).mp hd
      omega
    have h2 : c.isDigit = false := by
      rw [Bool.eq_false_iff]
      intro hd
      have := (char_isDigit_iff _).mp hd
      omega
    rw [h1, h2]
  · rw [if_neg h]

theorem takeWhile_append_of_head {p : Char → Bool} {l₁ l₂ : List Char}
    (h1 : ∀ c ∈ l₁, p c = true)
    (h2 : ∀ c, l₂.head? = some c → p c = false) :
    (l₁ ++ l₂).takeWhile p = l₁ := by
  induction l₁ with
  | nil =>
    cases l₂ with
    | nil => rfl
    | cons c t => simp [List.takeWhile_cons, h2 c rfl]
  | cons c t ih =>
    simp [List.takeWhile_cons, h1 c (List.mem_cons_self _ _),
      ih (fun c hc => h1 c (List.mem_cons_of_mem _ hc))]

/-- C10: for every string that begins with a run of decimal digits, the
quality parser returns that run's value times 1000 whatever follows the run
(a trailing `k` is optional, any other suffix is ignored); a string that
does not begin with a digit parses to `none`.  Lowercasing neither creates
nor destroys a leading digit, so the claim's "lowercased form begins with a
digit" coincides with the hypothesis here; the function is total, so it
never raises. -/
theorem parse_quality_leading_digits :
    (∀ (ds rest : List Char), ds ≠ [] → (∀ c ∈ ds, c.isDigit = true) →
      (∀ c, rest.head? = some c → c.isDigit = false) →
      parse_quality_to_bps (String.mk (ds ++ rest)) =
        some (digitsToNat ds * 1000)) ∧
    (∀ s : String, (∀ c, s.data.head? = some c → c.isDigit = false) →
      parse_quality_to_bps s = none) := by
  constructor
  · intro ds rest hne hds hrest
    show (let lowered := (ds ++ rest).map Char.toLower
          let dgs := lowered.takeWhile Char.isDigit
          if dgs.isEmpty then none
          else
            let value := digitsToNat dgs
            if lowered.getLast? = some 'k' then some (value * 1000)
            else some (value * 1000)) = some (digitsToNat ds * 1000)
    have hmap : ds.map Char.toLower = ds := by
      rw [List.map_congr_left (fun c hc => char_toLower_of_isDigit (hds c hc))]
      exact List.map_id ds
    have htw : ((ds ++ rest).map Char.toLower).takeWhile Char.isDigit = ds := by
      rw [List.map_append, hmap]
      refine takeWhile_append_of_head hds ?_
      intro c hc
      cases rest with
      | nil => simp at hc
      | cons c₀ t =>
        simp at hc
        rw [← hc, char_isDigit_toLower]
        exact hrest c₀ rfl
    simp only [htw]
    rw [if_neg (by simpa using hne)]
    exact ite_self _
  · intro s hs
    show (let lowered := s.data.map Char.toLower
          let dgs := lowered.takeWhile Char.isDigit
          if dgs.isEmpty then none
          else
            let value := digitsToNat dgs
            if lowered.getLast? = some 'k' then some (value * 1000)
            else some (value * 1000)) = none
    cases hdata : s.data with
    | nil => simp
    | cons c t =>
      have hc : c.isDigit = false := hs c (by rw [hdata]; rfl)
      have : (Char.toLower c).isDigit = false := by
        rw [char_isDigit_toLower]; exact hc
      simp [List.takeWhile_cons, this]

/-- Witness for C10: `"192kbps"` parses to 192000 (suffix after the digits
ignored), `"abc"` parses to `none`. -/
theorem parse_quality_leading_digits_witness :
    parse_quality_to_bps "192kbps" = some 192000 ∧
    parse_quality_to_bps "abc" = none := by
  constructor
  · have h := parse_quality_leading_digits.1 ['1', '9', '2']
      ['k', 'b', 'p', 's'] (by decide) (by decide) (by decide)
    have he : String.mk (['1', '9', '2'] ++ ['k', 'b', 'p', 's']) =
        "192kbps" := by decide
    rw [he] at h
    rw [h]
    decide
  · exact parse_quality_leading_digits.2 "abc" (by decide)

theorem audio_file_for_supported (output_dir stem : String)
    {audio_format : String}
    (h : audio_format ∈ (["mp3", "aac", "wav", "flac"] : List String)) :
    audio_file_for output_dir stem audio_format =
      some (output_dir ++ "/" ++ stem ++ "." ++ audio_format) := by
  simp only [List.mem_cons, List.not_mem_nil, or_false] at h
  rcases h with h | h | h | h <;> subst h
  · rw [audio_file_for, if_pos rfl,
      String.append_assoc (output_dir ++ "/" ++ stem) "." "mp3"]
    rfl
  · rw [audio_file_for, if_neg (by decide), if_pos rfl,
      String.append_assoc (output_dir ++ "/" ++ stem) "." "aac"]
    rfl
  · rw [audio_file_for, if_neg (by decide), if_neg (by decide), if_pos rfl,
      String.append_assoc (output_dir ++ "/" ++ stem) "." "wav"]
    rfl
  · rw [audio_file_for, if_neg (by decide), if_neg (by decide),
      if_neg (by decide), if_pos rfl,
      String.append_assoc (output_dir ++ "/" ++ stem) "." "flac"]
    rfl

theorem check_existing_step_values {fs : FileSystem}
    {output_dir audio_format : String} {acc : Ledger} {vf : VideoPath}
    {kv : String × CompletionRecord}
    (h : kv ∈ check_existing_step fs output_dir audio_format acc vf) :
    kv ∈ acc ∨ (kv.2.status = "completed" ∧ kv.2.detected = some "auto") := by
  unfold check_existing_step at h
  cases haf : audio_file_for output_dir vf.stem audio_format with
  | none => rw [haf] at h; left; exact h
  | some af =>
    rw [haf] at h
    simp only [] at h
    by_cases hch : (fs.pathExists af && decide (fs.fileSize af > 0)) = true
    · rw [if_pos hch] at h
      rcases mem_dictInsert h with h' | h'
      · left; exact h'
      · right; rw [h']; exact ⟨rfl, rfl⟩
    · rw [if_neg hch] at h; left; exact h

theorem check_existing_foldl_values {fs : FileSystem}
    {output_dir audio_format : String} (video_files : List VideoPath)
    (acc : Ledger)
    (hacc : ∀ kv ∈ acc, kv.2.status = "completed" ∧ kv.2.detected = some "auto") :
    ∀ kv ∈ video_files.foldl (check_existing_step fs output_dir audio_format)
        acc,
      kv.2.status = "completed" ∧ kv.2.detected = some "auto" := by
  induction video_files generalizing acc with
  | nil => exact hacc
  | cons vf rest ih =>
    rw [List.foldl_cons]
    refine ih _ ?_
    intro kv hkv
    rcases check_existing_step_values hkv with h | h
    · exact hacc kv h
    · exact h

theorem check_existing_step_isSome {fs : FileSystem}
    {output_dir audio_format : String} {acc : Ledger} {vf : VideoPath}
    {k : String} (h : (dictFind acc k).isSome) :
    (dictFind (check_existing_step fs output_dir audio_format acc vf)
      k).isSome := by
  unfold check_existing_step
  cases haf : audio_file_for output_dir vf.stem audio_format with
  | none => exact h
  | some af =>
    simp only []
    by_cases hch : (fs.pathExists af && decide (fs.fileSize af > 0)) = true
    · rw [if_pos hch]
      exact dictFind_insert_isSome _ _ _ _ h
    · rw [if_neg hch]; exact h

theorem check_existing_foldl_isSome {fs : FileSystem}
    {output_dir audio_format : String} (video_files : List VideoPath)
    (acc : Ledger) {k : String} (h : (dictFind acc k).isSome) :
    (dictFind (video_files.foldl
        (check_existing_step fs output_dir audio_format) acc) k).isSome := by
  induction video_files generalizing acc with
  | nil => exact h
  | cons vf rest ih =>
    rw [List.foldl_cons]
    exact ih _ (check_existing_step_isSome h)

theorem check_existing_step_hit {fs : FileSystem}
    {output_dir audio_format : String} (acc : Ledger) {vf : VideoPath}
    (hfmt : audio_format ∈ (["mp3", "aac", "wav", "flac"] : List String))
    (hex : fs.pathExists (output_dir ++ "/" ++ vf.stem ++ "." ++ audio_format)
      = true)
    (hsz : 0 < fs.fileSize
      (output_dir ++ "/" ++ vf.stem ++ "." ++ audio_format)) :
    (dictFind (check_existing_step fs output_dir audio_format acc vf)
      vf.basename).isSome := by
  unfold check_existing_step
  rw [audio_file_for_supported output_dir vf.stem hfmt]
  simp only []
  rw [if_pos (by simp [hex, hsz])]
  rw [dictFind_insert_self]
  rfl

theorem check_existing_isSome {fs : FileSystem}
    {output_dir audio_format : String} {video_files : List VideoPath}
    {vf : VideoPath} (acc : Ledger)
    (hmem : vf ∈ video_files)
    (hfmt : audio_format ∈ (["mp3", "aac", "wav", "flac"] : List String))
    (hex : fs.pathExists (output_dir ++ "/" ++ vf.stem ++ "." ++ audio_format)
      = true)
    (hsz : 0 < fs.fileSize
      (output_dir ++ "/" ++ vf.stem ++ "." ++ audio_format)) :
    (dictFind (video_files.foldl
        (check_existing_step fs output_dir audio_format) acc)
      vf.basename).isSome := by
  induction video_files generalizing acc with
  | nil => simp at hmem
  | cons v rest ih =>
    rw [List.foldl_cons]
    rcases List.mem_cons.mp hmem with h | h
    · subst h
      exact check_existing_foldl_isSome rest _
        (check_existing_step_hit acc hfmt hex hsz)
    · exact ih _ h

theorem merge_find (record auto : Ledger) (k : String) :
    dictFind (merge_auto_detected record auto) k =
      match dictFind record k with
      | some v => some v
      | none => dictFind auto k := by
  induction auto generalizing record with
  | nil =>
    cases h : dictFind record k <;>
      simp [merge_auto_detected, dictFind, h]
  | cons kv rest ih =>
    obtain ⟨k₁, v₁⟩ := kv
    unfold merge_auto_detected at ih ⊢
    rw [List.foldl_cons]
    by_cases h₁ : (dictFind record k₁).isSome
    · rw [if_pos h₁, ih]
      by_cases hk : k₁ = k
      · subst hk
        obtain ⟨v, hv⟩ := Option.isSome_iff_exists.mp h₁
        rw [hv]
      · cases h : dictFind record k
        · simp [dictFind, hk]
        · rfl
    · rw [if_neg h₁, ih]
      by_cases hk : k₁ = k
      · have hrec : dictFind record k = none := by
          cases h : dictFind record k with
          | none => rfl
          | some v => rw [hk, h] at h₁; simp at h₁
        rw [dictFind_append, hrec]
        simp [dictFind, hrec, hk]
      · rw [dictFind_append]
        cases h : dictFind record k
        · simp [dictFind, hk]
        · rfl

/-- Whether a candidate is routed to the completed list by `main`'s
partition loop. -/
def is_completed_in (record : Ledger) (video_file : VideoPath) : Bool :=
  match dictFind record video_file.basename with
  | some info => info.status = "completed"
  | none => false

theorem partition_pending_eq (video_files : List VideoPath) (record : Ledger) :
    partition_pending video_files record =
      (video_files.filter (is_completed_in record),
       video_files.filter (fun vf => ! is_completed_in record vf)) := by
  suffices h : ∀ (c p : List VideoPath),
      video_files.foldl (fun acc video_file =>
        match dictFind record video_file.basename with
        | some info =>
          if info.status = "completed" then (acc.1 ++ [video_file], acc.2)
          else (acc.1, acc.2 ++ [video_file])
        | none => (acc.1, acc.2 ++ [video_file])) (c, p) =
      (c ++ video_files.filter (is_completed_in record),
       p ++ video_files.filter (fun vf => ! is_completed_in record vf)) by
    have h0 := h [] []
    simpa [partition_pending] using h0
  induction video_files with
  | nil => intro c p; simp
  | cons vf rest ih =>
    intro c p
    rw [List.foldl_cons]
    cases hf : dictFind record vf.basename with
    | none =>
      simp only [hf]
      rw [ih]
      simp [List.filter_cons, is_completed_in, hf]
    | some info =>
      by_cases hs : info.status = "completed"
      · simp only [hf, if_pos hs]
        rw [ih]
        simp [List.filter_cons, is_completed_in, hf, hs]
      · simp only [hf, if_neg hs]
        rw [ih]
        simp [List.filter_cons, is_completed_in, hf, hs]

/-- C1: a candidate whose basename key is absent from the loaded ledger but
whose non-empty `<stem>.<fmt>` output file exists for a supported format
gets a merged-ledger record with status `completed` and auto-detected
provenance, lands in the completed partition and not in the pending one (so
no conversion is dispatched for it); and keys already present in the loaded
ledger are never overwritten by the merge. -/
theorem auto_detected_completion (fs : FileSystem)
    (video_files : List VideoPath) (output_dir audio_format : String)
    (record : Ledger) (vf : VideoPath)
    (hmem : vf ∈ video_files)
    (hfmt : audio_format ∈ (["mp3", "aac", "wav", "flac"] : List String))
    (hnew : dictFind record vf.basename = none)
    (hex : fs.pathExists (output_dir ++ "/" ++ vf.stem ++ "." ++ audio_format)
      = true)
    (hsz : 0 < fs.fileSize
      (output_dir ++ "/" ++ vf.stem ++ "." ++ audio_format)) :
    (∃ info, dictFind (merge_auto_detected record
        (check_existing_audio_files fs video_files output_dir audio_format))
          vf.basename = some info ∧
      info.status = "completed" ∧ info.detected = some "auto") ∧
    vf ∈ (partition_pending video_files (merge_auto_detected record
      (check_existing_audio_files fs video_files output_dir
        audio_format))).1 ∧
    vf ∉ (partition_pending video_files (merge_auto_detected record
      (check_existing_audio_files fs video_files output_dir
        audio_format))).2 ∧
    (∀ k info, dictFind record k = some info →
      dictFind (merge_auto_detected record
        (check_existing_audio_files fs video_files output_dir audio_format))
          k = some info) := by
  have hauto : (dictFind (check_existing_audio_files fs video_files
      output_dir audio_format) vf.basename).isSome :=
    check_existing_isSome [] hmem hfmt hex hsz
  obtain ⟨info, hinfo⟩ := Option.isSome_iff_exists.mp hauto
  have hprops : info.status = "completed" ∧ info.detected = some "auto" :=
    check_existing_foldl_values video_files [] (by simp)
      (vf.basename, info) (dictFind_mem hinfo)
  have hmerged : dictFind (merge_auto_detected record
      (check_existing_audio_files fs video_files output_dir audio_format))
        vf.basename = some info := by
    rw [merge_find, hnew, hinfo]
  have hcomp : is_completed_in (merge_auto_detected record
      (check_existing_audio_files fs video_files output_dir audio_format))
        vf = true := by
    unfold is_completed_in
    rw [hmerged]
    simp [hprops.1]
  refine ⟨⟨info, hmerged, hprops.1, hprops.2⟩, ?_, ?_, ?_⟩
  · rw [partition_pending_eq]
    exact List.mem_filter.mpr ⟨hmem, hcomp⟩
  · rw [partition_pending_eq]
    intro hin
    have := (List.mem_filter.mp hin).2
    rw [hcomp] at this
    simp at this
  · intro k info' hk
    rw [merge_find, hk]

/-- Witness for C1: one candidate `video1.mp4`, an empty loaded ledger, and
a filesystem oracle that reports a non-empty `video1.mp3`; the merged
ledger gains the auto-detected completed entry and the candidate is
partitioned as completed. -/
theorem auto_detected_completion_witness :
    (∃ info, dictFind (merge_auto_detected []
        (check_existing_audio_files
          ⟨fun _ => true, fun _ => 5, fun _ => "1700000000.0"⟩
          [⟨"./original", "video1", "mp4"⟩] "./extracted_audio" "mp3"))
          "video1.mp4" = some info ∧
      info.status = "completed" ∧ info.detected = some "auto") ∧
    ⟨"./original", "video1", "mp4"⟩ ∈ (partition_pending
      [⟨"./original", "video1", "mp4"⟩] (merge_auto_detected []
        (check_existing_audio_files
          ⟨fun _ => true, fun _ => 5, fun _ => "1700000000.0"⟩
          [⟨"./original", "video1", "mp4"⟩] "./extracted_audio" "mp3"))).1 := by
  have h := auto_detected_completion
    ⟨fun _ => true, fun _ => 5, fun _ => "1700000000.0"⟩
    [⟨"./original", "video1", "mp4"⟩] "./extracted_audio" "mp3" []
    ⟨"./original", "video1", "mp4"⟩ (by simp) (by decide) (by rfl)
    (by rfl) (by decide)
  exact ⟨h.1, h.2.1⟩

end ExtractAudio
